import Mathlib

/-!
Verification development for the `claude-workspace` JSON persistence layer.

The Python sources embedded here are `scripts/safe_json_operations.py`
(lock-protected JSON store) and `scripts/smart-consistency-monitor.py`
(adaptive consistency monitor).  Pure functions are translated to Lean
functions; the stateful parts (filesystem contents, monitor state) are
modelled by explicit state passing.  Python's `json` module is modelled by
a serializer/parser pair over an inductive JSON value type; JSON numbers
are modelled as integers (floating point is out of scope), and `dict`
ordering follows Python's insertion-order semantics (association lists).
-/

namespace SafeJson

/-! JSON values as manipulated by the Python code.  `str` keys and contents
are lists of unicode characters; numbers are modelled as integers. -/
mutual
inductive JsonVal where
  | null
  | bool (b : Bool)
  | num (n : Int)
  | str (s : List Char)
  | arr (elems : JsonArr)
  | obj (mems : JsonObj)
  deriving Repr
inductive JsonArr where
  | nil
  | cons (hd : JsonVal) (tl : JsonArr)
  deriving Repr
inductive JsonObj where
  | nil
  | cons (key : List Char) (val : JsonVal) (tl : JsonObj)
  deriving Repr
end

/-- Opening brace character, written by code point to keep sources brace-free. -/
def lbrace : Char := Char.ofNat 123

/-- Closing brace character. -/
def rbrace : Char := Char.ofNat 125

/-- Decimal digit character for `n < 10` (code points 48..57), as in Python's
`repr` of an `int`. -/
def digitChar (n : Nat) : Char := Char.ofNat (48 + n)

/-- Decimal digits of a natural number, most significant first, no leading
zeros (Python `repr(n)` for `n ≥ 0`). -/
def natDigits (n : Nat) : List Char :=
  if _h : n < 10 then [digitChar n]
  else natDigits (n / 10) ++ [digitChar (n % 10)]
decreasing_by exact Nat.div_lt_self (by omega) (by omega)

/-- Decimal rendering of an integer (Python `repr(n)` / `json.dump` of an int). -/
def intDigits (n : Int) : List Char :=
  if n < 0 then '-' :: natDigits (-n).toNat else natDigits n.toNat

/-- Lower-case hex digit for `n < 16`, as produced by Python's `json` module
for `\u00XX` escapes. -/
def hexChar (n : Nat) : Char :=
  if n < 10 then digitChar n else Char.ofNat (87 + n)

/-- Escape of one character inside a JSON string, per `json.dump` with
`ensure_ascii=False`: only `"`, backslash and control characters below
0x20 are escaped, with the usual short escapes. -/
def escChar (c : Char) : List Char :=
  if c = '"' then ['\\', '"']
  else if c = '\\' then ['\\', '\\']
  else if c = '\n' then ['\\', 'n']
  else if c = '\r' then ['\\', 'r']
  else if c = '\t' then ['\\', 't']
  else if c = '\x08' then ['\\', 'b']
  else if c = '\x0c' then ['\\', 'f']
  else if c.toNat < 32 then
    ['\\', 'u', '0', '0', hexChar (c.toNat / 16), hexChar (c.toNat % 16)]
  else [c]

/-- Escape a whole JSON string body. -/
def escapeChars : List Char → List Char
  | [] => []
  | c :: t => escChar c ++ escapeChars t

/-- Indentation prefix at nesting depth `d` for `json.dump(..., indent=indent)`. -/
def indentChars (indent d : Nat) : List Char := List.replicate (indent * d) ' '

/-- The characters of the JSON literal `null`. -/
def nullChars : List Char := ['n', 'u', 'l', 'l']

/-- The characters of the JSON literal `true`. -/
def trueChars : List Char := ['t', 'r', 'u', 'e']

/-- The characters of the JSON literal `false`. -/
def falseChars : List Char := ['f', 'a', 'l', 's', 'e']

/-! Characters of `json.dump(v, indent=indent)` at nesting depth `d`:
newline-separated members with per-level indentation, item separator
`",\n"`, key separator `": "`, exactly as Python's encoder emits with a
positive `indent`. -/
mutual
def dchars (indent d : Nat) : JsonVal → List Char
  | .null => nullChars
  | .bool true => trueChars
  | .bool false => falseChars
  | .num n => intDigits n
  | .str s => '"' :: escapeChars s ++ ['"']
  | .arr .nil => ['[', ']']
  | .arr (.cons x l) =>
      '[' :: '\n' :: indentChars indent (d + 1) ++ dchars indent (d + 1) x ++
        dcharsArrTail indent (d + 1) l ++ '\n' :: indentChars indent d ++ [']']
  | .obj .nil => [lbrace, rbrace]
  | .obj (.cons k v l) =>
      lbrace :: '\n' :: indentChars indent (d + 1) ++
        ('"' :: escapeChars k ++ '"' :: ':' :: ' ' :: dchars indent (d + 1) v) ++
        dcharsObjTail indent (d + 1) l ++ '\n' :: indentChars indent d ++ [rbrace]
def dcharsArrTail (indent d : Nat) : JsonArr → List Char
  | .nil => []
  | .cons x l =>
      ',' :: '\n' :: indentChars indent d ++ dchars indent d x ++
        dcharsArrTail indent d l
def dcharsObjTail (indent d : Nat) : JsonObj → List Char
  | .nil => []
  | .cons k v l =>
      ',' :: '\n' :: indentChars indent d ++
        ('"' :: escapeChars k ++ '"' :: ':' :: ' ' :: dchars indent d v) ++
        dcharsObjTail indent d l
end

/-- `json.dumps(v, indent=indent, ensure_ascii=False)` as a Lean string. -/
def json_dumps (indent : Nat) (v : JsonVal) : String := String.mk (dchars indent 0 v)

/-! ### A model of `json.loads` (recursive-descent, fuel-bounded) -/

/-- JSON whitespace accepted between tokens (as in Python's `json` module). -/
def isWsChar (c : Char) : Bool := c = ' ' || c = '\t' || c = '\n' || c = '\r'

/-- Drop leading JSON whitespace. -/
def skipWs : List Char → List Char
  | [] => []
  | c :: r => if isWsChar c then skipWs r else c :: r

/-- Decimal digit test (code points 48..57). -/
def isDigitChar (c : Char) : Bool := 48 ≤ c.toNat && c.toNat ≤ 57

/-- Value of a decimal digit character. -/
def digitVal (c : Char) : Nat := c.toNat - 48

/-- Hex digit test: `0-9`, `a-f`, `A-F`. -/
def isHexDigitChar (c : Char) : Bool :=
  isDigitChar c || (97 ≤ c.toNat && c.toNat ≤ 102) || (65 ≤ c.toNat && c.toNat ≤ 70)

/-- Value of a hex digit character. -/
def hexVal (c : Char) : Nat :=
  if c.toNat ≤ 57 then c.toNat - 48
  else if c.toNat ≤ 70 then c.toNat - 55
  else c.toNat - 87

/-- Consume a maximal run of decimal digits, accumulating their value. -/
def parseDigits : List Char → Nat → Nat × List Char
  | [], acc => (acc, [])
  | c :: r, acc =>
      if isDigitChar c then parseDigits r (10 * acc + digitVal c) else (acc, c :: r)

/-- Head-of-list digit test. -/
def headIsDigit : List Char → Bool
  | c :: _ => isDigitChar c
  | [] => false

/-- Head-of-list test for characters that would continue a JSON number into a
float (`.`, `e`, `E`); floats are outside this model, so such numbers are
rejected rather than misparsed. -/
def headIsFloatCue : List Char → Bool
  | c :: _ => c = '.' || c = 'e' || c = 'E'
  | [] => false

/-- Parse an unsigned JSON integer: a nonempty digit run with no redundant
leading zero and no fraction/exponent continuation. -/
def parseNatNum (s : List Char) : Option (Nat × List Char) :=
  match s with
  | [] => none
  | c :: r =>
      if isDigitChar c then
        let p := parseDigits r (digitVal c)
        if c = '0' && headIsDigit r then none
        else if headIsFloatCue p.2 then none
        else some p
      else none

/-- Parse a JSON integer with optional leading minus sign. -/
def parseNumber (s : List Char) : Option (Int × List Char) :=
  match s with
  | [] => none
  | c :: r =>
      if c = '-' then (parseNatNum r).map (fun p => (-(p.1 : Int), p.2))
      else (parseNatNum s).map (fun p => ((p.1 : Int), p.2))

/-- Parse the body of a JSON string after the opening quote, handling the
escape sequences of `json.loads` (strict mode: raw control characters are
rejected; `\uXXXX` must denote a valid unicode scalar). -/
def parseStrBody : List Char → Option (List Char × List Char)
  | [] => none
  | c :: r =>
      if c = '"' then some ([], r)
      else if c = '\\' then
        match r with
        | [] => none
        | e :: r2 =>
            if e = '"' then (parseStrBody r2).map (fun p => ('"' :: p.1, p.2))
            else if e = '\\' then (parseStrBody r2).map (fun p => ('\\' :: p.1, p.2))
            else if e = '/' then (parseStrBody r2).map (fun p => ('/' :: p.1, p.2))
            else if e = 'n' then (parseStrBody r2).map (fun p => ('\n' :: p.1, p.2))
            else if e = 'r' then (parseStrBody r2).map (fun p => ('\r' :: p.1, p.2))
            else if e = 't' then (parseStrBody r2).map (fun p => ('\t' :: p.1, p.2))
            else if e = 'b' then (parseStrBody r2).map (fun p => ('\x08' :: p.1, p.2))
            else if e = 'f' then (parseStrBody r2).map (fun p => ('\x0c' :: p.1, p.2))
            else if e = 'u' then
              match r2 with
              | h1 :: h2 :: h3 :: h4 :: r3 =>
                  if isHexDigitChar h1 && isHexDigitChar h2 &&
                      isHexDigitChar h3 && isHexDigitChar h4 then
                    let n := hexVal h1 * 4096 + hexVal h2 * 256 + hexVal h3 * 16 + hexVal h4
                    if n.isValidChar then
                      (parseStrBody r3).map (fun p => (Char.ofNat n :: p.1, p.2))
                    else none
                  else none
              | _ => none
            else none
      else if c.toNat < 32 then none
      else (parseStrBody r).map (fun p => (c :: p.1, p.2))
termination_by s => s.length
decreasing_by all_goals simp_wf <;> omega

/-- Expect a literal character sequence at the head of the input. -/
def expectChars : List Char → List Char → Option (List Char)
  | [], s => some s
  | _ :: _, [] => none
  | c :: cs, d :: s => if d = c then expectChars cs s else none

mutual
/-- Fuel-bounded recursive-descent parser for one JSON value (model of
Python `json.loads`, restricted to integer numbers). -/
def parseVal : Nat → List Char → Option (JsonVal × List Char)
  | 0, _ => none
  | f + 1, s =>
      match skipWs s with
      | [] => none
      | c :: r =>
          if c = 'n' then (expectChars ['u', 'l', 'l'] r).map (fun r2 => (JsonVal.null, r2))
          else if c = 't' then
            (expectChars ['r', 'u', 'e'] r).map (fun r2 => (JsonVal.bool true, r2))
          else if c = 'f' then
            (expectChars ['a', 'l', 's', 'e'] r).map (fun r2 => (JsonVal.bool false, r2))
          else if c = '"' then (parseStrBody r).map (fun p => (JsonVal.str p.1, p.2))
          else if c = '[' then
            match skipWs r with
            | [] => none
            | d :: r2 =>
                if d = ']' then some (JsonVal.arr .nil, r2)
                else do
                  let (x, r3) ← parseVal f (d :: r2)
                  let (xs, r4) ← parseArrTail f r3
                  some (JsonVal.arr (.cons x xs), r4)
          else if c = lbrace then
            match skipWs r with
            | [] => none
            | d :: r2 =>
                if d = rbrace then some (JsonVal.obj .nil, r2)
                else if d = '"' then do
                  let (k, r3) ← parseStrBody r2
                  match skipWs r3 with
                  | [] => none
                  | e :: r4 =>
                      if e = ':' then do
                        let (v, r5) ← parseVal f r4
                        let (ms, r6) ← parseObjTail f r5
                        some (JsonVal.obj (.cons k v ms), r6)
                      else none
                else none
          else if c = '-' || isDigitChar c then
            (parseNumber (c :: r)).map (fun p => (JsonVal.num p.1, p.2))
          else none
/-- Parse the items of an array after the first item: `,`-separated values
up to the closing bracket. -/
def parseArrTail : Nat → List Char → Option (JsonArr × List Char)
  | 0, _ => none
  | f + 1, s =>
      match skipWs s with
      | [] => none
      | c :: r =>
          if c = ']' then some (.nil, r)
          else if c = ',' then do
            let (x, r2) ← parseVal f r
            let (xs, r3) ← parseArrTail f r2
            some (JsonArr.cons x xs, r3)
          else none
/-- Parse the members of an object after the first member. -/
def parseObjTail : Nat → List Char → Option (JsonObj × List Char)
  | 0, _ => none
  | f + 1, s =>
      match skipWs s with
      | [] => none
      | c :: r =>
          if c = rbrace then some (.nil, r)
          else if c = ',' then
            match skipWs r with
            | [] => none
            | d :: r2 =>
                if d = '"' then do
                  let (k, r3) ← parseStrBody r2
                  match skipWs r3 with
                  | [] => none
                  | e :: r4 =>
                      if e = ':' then do
                        let (v, r5) ← parseVal f r4
                        let (ms, r6) ← parseObjTail f r5
                        some (JsonObj.cons k v ms, r6)
                      else none
                else none
          else none
end

/-- Model of `json.loads`: parse one value, then require only trailing
whitespace (Python raises "Extra data" otherwise). -/
def json_loads (s : String) : Option JsonVal :=
  match parseVal (s.data.length + 2) s.data with
  | none => none
  | some (v, rest) => if skipWs rest = [] then some v else none

/-! ### Size measures used as parser fuel bounds -/

mutual
def sizeV : JsonVal → Nat
  | .null => 1
  | .bool _ => 1
  | .num _ => 1
  | .str _ => 1
  | .arr l => 1 + sizeA l
  | .obj ms => 1 + sizeO ms
def sizeA : JsonArr → Nat
  | .nil => 1
  | .cons x l => 1 + sizeV x + sizeA l
def sizeO : JsonObj → Nat
  | .nil => 1
  | .cons _ v l => 1 + sizeV v + sizeO l
end

/-! ### Python `str.strip` and file-content helpers -/

/-- ASCII whitespace removed by Python's `str.strip()` (the characters
relevant to this development). -/
def isStripWs (c : Char) : Bool :=
  c = ' ' || c = '\t' || c = '\n' || c = '\r' || c = '\x0b' || c = '\x0c'

/-- Model of Python `content.strip()`. -/
def pstrip (s : String) : String :=
  String.mk (((s.data.dropWhile isStripWs).reverse.dropWhile isStripWs).reverse)

/-! ## Model of `scripts/safe_json_operations.py` -/

/-- Python exception values raised by the store.  The module defines the
single exception class `SafeJSONError` (lines 21-23); other classes appear
only as underlying causes inside messages. -/
inductive PyError where
  | safeJSONError (msg : String)
  | osError (msg : String)
  deriving Repr, DecidableEq

/-- The Python class of a raised exception: the only property a caller can
dispatch on with `except <Class>`. -/
def PyError.className : PyError → String
  | .safeJSONError _ => "SafeJSONError"
  | .osError _ => "OSError"

/-- The message carried by an exception. -/
def PyError.message : PyError → String
  | .safeJSONError m => m
  | .osError m => m

/-- The retry loop of `SafeJSONLock.__enter__` (lines 50-72).  `avail k`
abstracts whether the `k`-th `open`+`flock(LOCK_EX | LOCK_NB)` attempt
(0-based) succeeds; `retries` is the loop variable and `fuel` the remaining
iterations `max_retries - retries`.  Returns the outcome together with the
list of back-off sleep durations executed by `time.sleep`. -/
def lockLoop (path : String) (avail : Nat → Bool) (max_retries : Nat) (retry_delay : ℚ) :
    Nat → Nat → Except PyError Unit × List ℚ
  | _, 0 =>
      (.error (.safeJSONError ("Unexpected error acquiring lock on " ++ path)), [])
  | retries, fuel + 1 =>
      if avail retries then (.ok (), [])
      else
        let r := retries + 1
        if max_retries ≤ r then
          (.error (.safeJSONError ("Failed to acquire lock on " ++ path ++ " after " ++
            toString max_retries ++ " retries")), [])
        else
          let s := retry_delay * 2 ^ min r 4
          let p := lockLoop path avail max_retries retry_delay r fuel
          (p.1, s :: p.2)

/-- `SafeJSONLock.__enter__`'s lock acquisition: the loop entered with
`retries = 0` and budget `max_retries`. -/
def SafeJSONLock_enter (path : String) (avail : Nat → Bool) (max_retries : Nat)
    (retry_delay : ℚ) : Except PyError Unit × List ℚ :=
  lockLoop path avail max_retries retry_delay 0 max_retries

/-- `safe_json_read` (lines 88-122) over an abstract file: `content` is the
target file's content (`none` when the path does not exist) and `lockOk`
abstracts whether the lock acquisition inside succeeds.  A failed lock
raises `SafeJSONError`, which the outer `except Exception` handler re-wraps
as an "Error reading" `SafeJSONError`. -/
def safe_json_read (path : String) (lockOk : Bool) (content : Option String)
    (default : JsonVal) : Except PyError JsonVal :=
  match content with
  | none => .ok default
  | some raw =>
      if lockOk then
        let c := pstrip raw
        if c = "" then .ok default
        else
          match json_loads c with
          | some v => .ok v
          | none => .error (.safeJSONError ("Invalid JSON in " ++ path))
      else
        .error (.safeJSONError ("Error reading " ++ path ++
          ": Failed to acquire lock on " ++ path))

/-- The files touched by one `safe_json_write` call. -/
structure WriteFS where
  target : Option String
  backupFile : Option String
  temp : Option String
  deriving Repr, DecidableEq

/-- The steps of `safe_json_write` at which an exception can arise, paired
with the underlying cause's message when injected. -/
inductive WriteStep where
  | mkstempStep
  | writeTempStep
  | lockStep
  | renameStep
  deriving Repr, DecidableEq

/-- The `except` handler of `safe_json_write` (lines 192-213): close and
unlink the temp file if it exists, copy the backup over the target if this
call took one, and re-raise as `SafeJSONError` carrying the cause.  The
unlink and the restoring copy are themselves `try/except: pass` in the
source; this model takes the branch where they succeed. -/
def writeCleanup (fs : WriteFS) (path : String) (backupTaken : Bool) (cause : String) :
    Except PyError Bool × WriteFS :=
  let fs1 := { fs with temp := none }
  let fs2 :=
    if backupTaken then
      match fs1.backupFile with
      | some b => { fs1 with target := some b }
      | none => fs1
    else fs1
  (.error (.safeJSONError ("Error writing " ++ path ++ ": " ++ cause)), fs2)

/-- `safe_json_write` (lines 125-213): optional backup copy, temp file
creation and write, lock acquisition on the target (whose `'w'`-mode `open`
truncates the target), and the final rename.  `failAt` injects an exception
at one step (`none` is the successful run); the backup copy of lines
152-156, non-fatal in the source, is modelled as succeeding. -/
def safe_json_write (fs : WriteFS) (path : String) (data : JsonVal) (indent : Nat)
    (backup : Bool) (failAt : Option (WriteStep × String)) :
    Except PyError Bool × WriteFS :=
  let backupTaken := backup && fs.target.isSome
  let fs1 := if backupTaken then { fs with backupFile := fs.target } else fs
  match failAt with
  | some (.mkstempStep, cause) => writeCleanup fs1 path backupTaken cause
  | _ =>
      let fs2 := { fs1 with temp := some "" }
      match failAt with
      | some (.writeTempStep, cause) => writeCleanup fs2 path backupTaken cause
      | _ =>
          let fs3 := { fs2 with temp := some (json_dumps indent data) }
          let fs4 := { fs3 with target := some "" }
          match failAt with
          | some (.lockStep, cause) => writeCleanup fs4 path backupTaken cause
          | some (.renameStep, cause) => writeCleanup fs4 path backupTaken cause
          | _ => (.ok true, { fs4 with target := fs3.temp, temp := none })

/-- The successive contents of the target path during a successful
`safe_json_write` on a Unix system: initially; after the backup copy
(152-156); after the temp file is fully written and fsynced (162-177);
after `SafeJSONLock.__enter__` touches a missing target (43-45); after
`open(file_path, 'w')` truncates it (53); and after the rename (188). -/
def safe_json_write_targetTrace (target : Option String) (data : JsonVal) (indent : Nat) :
    List (Option String) :=
  [ target,
    target,
    target,
    (if target.isSome then target else some ""),
    some "",
    some (json_dumps indent data) ]

/-- The spec's on-disk invariant for a path: the file holds one complete,
syntactically valid JSON document, or is absent. -/
def jsonFileOk : Option String → Bool
  | none => true
  | some c => (json_loads c).isSome

end SafeJson

/-! ## Model of `scripts/smart-consistency-monitor.py`

`json_cache_manager` is not among this repository's sources, so the
`ImportError` branch applies: `USE_CACHE = False` and content validation
goes through `safe_json_read` (lines 25-27, 153-159). -/

namespace CMonitor

open SafeJson

/-- Python `data is not None` on the value returned by `safe_json_read`
with default `None`. -/
def isNullVal : JsonVal → Bool
  | .null => true
  | _ => false

/-- The `FileState` dataclass (lines 30-40); the `path` field is carried as
the map key. -/
structure FileState where
  last_check : ℚ
  last_mtime : ℚ
  last_size : Nat
  checksum : Option String := none
  is_dirty : Bool := false
  check_count : Nat := 0
  error_count : Nat := 0
  deriving Repr, DecidableEq

/-- The `self.stats` counters (lines 78-85). -/
structure Stats where
  total_checks : Nat := 0
  dirty_detections : Nat := 0
  cache_hits : Nat := 0
  cache_misses : Nat := 0
  batch_validations : Nat := 0
  errors : Nat := 0
  deriving Repr, DecidableEq

/-- The mutable state of `SmartConsistencyMonitor` (lines 57-85).  The sets
`dirty_files` / `stable_files` are kept as duplicate-free lists so that
`len(...)` is observable. -/
structure Monitor where
  file_states : String → Option FileState
  dirty_files : List String
  stable_files : List String
  min_check_interval : ℚ
  max_check_interval : ℚ
  stable_threshold : Nat
  stats : Stats

/-- Python `set.add`. -/
def setAdd (s : List String) (x : String) : List String :=
  if x ∈ s then s else x :: s

/-- Python `set.discard`. -/
def setDiscard (s : List String) (x : String) : List String :=
  s.filter (fun y => y ≠ x)

/-- The tuning constants installed by `__init__` (lines 62-65) over empty
tracking state. -/
def initMonitor : Monitor :=
  { file_states := fun _ => none
    dirty_files := []
    stable_files := []
    min_check_interval := 10
    max_check_interval := 300
    stable_threshold := 5
    stats := {} }

/-- The per-file result dict of `_validate_json_file` / `batch_validate`;
only the `path` and `status` keys, which the claims inspect, are kept. -/
structure VResult where
  path : String
  status : String
  deriving Repr, DecidableEq

/-- Lines 153-159 (`USE_CACHE = False` branch): `safe_json_read(file_key,
None)` classifies the file `valid` iff it returns non-`None` data; a
`SafeJSONError` classifies it `invalid` and bumps `stats['errors']`.
Returns the validity together with the error-counter increment. -/
def contentValidation (key : String) (content : Option String) : Bool × Nat :=
  match safe_json_read key true content JsonVal.null with
  | .ok v => (!(isNullVal v), 0)
  | .error _ => (false, 1)

/-- The "file is new or changed" path of `_validate_json_file`
(lines 142-189): bump `total_checks`, validate content, compute the
checksum only for invalid files (`chk` abstracts `_calculate_checksum`),
install a fresh `FileState` with `check_count = 1`, and update the
dirty/stable sets. -/
def validateChanged (m : Monitor) (key : String) (now : ℚ) (sig : ℚ × Nat)
    (content : Option String) (chk : Option String → Option String) :
    Monitor × VResult :=
  let stats1 := { m.stats with total_checks := m.stats.total_checks + 1 }
  let vr := contentValidation key content
  let valid := vr.1
  let stats2 := { stats1 with errors := stats1.errors + vr.2 }
  let checksum := if valid then none else chk content
  let st : FileState :=
    { last_check := now
      last_mtime := sig.1
      last_size := sig.2
      checksum := checksum
      is_dirty := !valid
      check_count := 1
      error_count := if valid then 0 else 1 }
  let m1 := { m with
    stats := stats2
    file_states := fun k => if k = key then some st else m.file_states k }
  if valid then
    ({ m1 with dirty_files := setDiscard m1.dirty_files key },
      { path := key, status := "valid" })
  else
    ({ m1 with
        dirty_files := setAdd m1.dirty_files key
        stable_files := setDiscard m1.stable_files key
        stats := { stats2 with dirty_detections := stats2.dirty_detections + 1 } },
      { path := key, status := "invalid" })

/-- `_validate_json_file` (lines 111-198): `sig` is the `(mtime, size)`
signature `_get_file_signature` observes, `content` the target file's
content, `chk` abstracts `_calculate_checksum`, and `exc` injects an
exception into the `try` body (the `except Exception` handler of lines
191-198 then classifies the result as `error`). -/
def validate_json_file (m : Monitor) (key : String) (now : ℚ) (sig : ℚ × Nat)
    (content : Option String) (chk : Option String → Option String)
    (exc : Option String) : Monitor × VResult :=
  match exc with
  | some _ =>
      ({ m with stats := { m.stats with errors := m.stats.errors + 1 } },
        { path := key, status := "error" })
  | none =>
      match m.file_states key with
      | some st =>
          if sig = (st.last_mtime, st.last_size) then
            let st1 := { st with last_check := now, check_count := st.check_count + 1 }
            if m.stable_threshold ≤ st1.check_count then
              let st2 := { st1 with is_dirty := false }
              ({ m with
                  file_states := fun k => if k = key then some st2 else m.file_states k
                  stable_files := setAdd m.stable_files key
                  dirty_files := setDiscard m.dirty_files key },
                { path := key, status := "unchanged" })
            else
              ({ m with
                  file_states := fun k => if k = key then some st1 else m.file_states k },
                { path := key, status := "unchanged" })
          else validateChanged m key now sig content chk
      | none => validateChanged m key now sig content chk

/-- `_should_check_file` (lines 216-234): new paths are always due; stable
paths use the exponentially backed-off interval (Python's `**` on a
negative exponent yields a fraction, so the exponent lives in `ℤ`); other
tracked paths use the fixed minimum interval. -/
def should_check_file (m : Monitor) (key : String) (now : ℚ) : Bool :=
  match m.file_states key with
  | none => true
  | some st =>
      let check_interval : ℚ :=
        if key ∈ m.stable_files then
          min m.max_check_interval
            (m.min_check_interval *
              (2 : ℚ) ^ (min ((st.check_count : ℤ) - (m.stable_threshold : ℤ)) 4))
        else m.min_check_interval
      decide (check_interval ≤ now - st.last_check)

/-- How one scheduled validation behaves in the worker pool: `normal`
supplies the observed signature and content; `raises` injects an exception
inside `_validate_json_file`'s `try`; `timesOut` makes `future.result(
timeout=5)` raise, which `batch_validate` records as status `timeout`
(lines 263-274). -/
inductive FOutcome where
  | normal (sig : ℚ × Nat) (content : Option String)
  | raises (e : String)
  | timesOut (e : String)

/-- The dict returned by `batch_validate`: the `no_files_to_check` early
return (lines 245-251) or the full summary (lines 276-289). -/
inductive BatchSummary where
  | noFiles (dirty stable : Nat)
  | report (checked valid invalid errors : Nat) (dirty_files : List String)
      (stable_files : Nat) (results : List VResult)
  deriving Repr, DecidableEq

/-- One worker's contribution: run `_validate_json_file` (with or without an
injected exception) or observe the per-file timeout at `future.result`. -/
def runOne (m : Monitor) (now : ℚ) (chk : Option String → Option String)
    (kf : String × FOutcome) : Monitor × VResult :=
  match kf.2 with
  | .normal sig content => validate_json_file m kf.1 now sig content chk none
  | .raises e => validate_json_file m kf.1 now (0, 0) none chk (some e)
  | .timesOut _ => (m, { path := kf.1, status := "timeout" })

/-- Collect every selected file's result (exactly one per future, in
submission order; worker interleavings are modelled sequentially). -/
def runAll (m : Monitor) (now : ℚ) (chk : Option String → Option String) :
    List (String × FOutcome) → Monitor × List VResult
  | [] => (m, [])
  | kf :: rest =>
      let p := runOne m now chk kf
      let q := runAll p.1 now chk rest
      (q.1, p.2 :: q.2)

/-- `batch_validate` (lines 236-289): filter to due files unless
`force_all`, early-return when nothing is selected, otherwise validate
every selected file and aggregate the summary counts. -/
def batch_validate (m : Monitor) (now : ℚ) (chk : Option String → Option String)
    (files : List (String × FOutcome)) (force_all : Bool) : Monitor × BatchSummary :=
  let files_to_check :=
    if force_all then files
    else files.filter (fun kf => should_check_file m kf.1 now)
  if files_to_check.isEmpty then
    (m, .noFiles m.dirty_files.length m.stable_files.length)
  else
    let m1 := { m with
      stats := { m.stats with batch_validations := m.stats.batch_validations + 1 } }
    let p := runAll m1 now chk files_to_check
    let results := p.2
    let valid_count := results.countP (fun r => r.status == "valid")
    let invalid_count := results.countP (fun r => r.status == "invalid")
    let error_count := results.countP (fun r => r.status == "error" || r.status == "timeout")
    (p.1, .report results.length valid_count invalid_count error_count
      p.1.dirty_files p.1.stable_files.length results)

end CMonitor

/-! ## Error conditions and concrete monitor states used by the claims -/

/-- The three failure conditions the spec's propagation policy names. -/
inductive FailCondition where
  | invalidFormat
  | lockTimeout
  | writeFailed
  deriving Repr, DecidableEq

/-- Extract the raised exception from a fallible result. -/
def errOf {α : Type} : Except SafeJson.PyError α → SafeJson.PyError
  | .error e => e
  | .ok _ => .osError "no error raised"

open SafeJson in
/-- The exception the store raises for each condition, read off the
corresponding operation: reading non-JSON content, exhausting the lock
retry budget (defaults `max_retries=10`, `retry_delay=0.1`), and a write
whose rename fails. -/
def raisedOn (path : String) : FailCondition → SafeJson.PyError
  | .invalidFormat => errOf (safe_json_read path true (some "x") JsonVal.null)
  | .lockTimeout => errOf (SafeJSONLock_enter path (fun _ => false) 10 (1 / 10)).1
  | .writeFailed =>
      errOf (safe_json_write ⟨some "[]", none, none⟩ path JsonVal.null 2 true
        (some (WriteStep.renameStep, "rename failed"))).1

open CMonitor in
/-- A monitor tracking one stable path `"f"` (signature `(1, 1)`, six clean
checks) used to refute claim C7. -/
def mStableValid : Monitor :=
  { initMonitor with
    file_states := fun k => if k = "f" then
        some { last_check := 0, last_mtime := 1, last_size := 1, checksum := none,
               is_dirty := false, check_count := 6, error_count := 0 }
      else none
    stable_files := ["f"] }

open CMonitor in
/-- The tracked state of `"f"` in the witness monitors below: six clean
checks against signature `(1, 1)`. -/
def stSixClean : FileState :=
  { last_check := 0, last_mtime := 1, last_size := 1, checksum := none,
    is_dirty := false, check_count := 6, error_count := 0 }

open CMonitor in
/-- A monitor tracking the stable path `"f"` whose content went invalid,
used to witness the amended C7. -/
def mStableGoneBad : Monitor :=
  { initMonitor with
    file_states := fun k => if k = "f" then some stSixClean else none
    stable_files := ["f"] }

open CMonitor in
/-- The tracked state of `"f"` for the C8 witness: seven clean checks. -/
def stSevenClean : FileState :=
  { last_check := 0, last_mtime := 1, last_size := 1, checksum := none,
    is_dirty := false, check_count := 7, error_count := 0 }

open CMonitor in
/-- A monitor with the stable path `"f"` at seven clean checks, for the C8
witness. -/
def mSchedule : Monitor :=
  { initMonitor with
    file_states := fun k => if k = "f" then some stSevenClean else none
    stable_files := ["f"] }

open CMonitor in
/-- The tracked state of `"f"` for the C10 witness: four checks, last
validation invalid (dirty). -/
def stFourDirty : FileState :=
  { last_check := 0, last_mtime := 1, last_size := 1, checksum := some "deadbeef",
    is_dirty := true, check_count := 4, error_count := 1 }

open CMonitor in
/-- A monitor tracking the dirty path `"f"` one clean check short of the
stability threshold, for the C10 witness. -/
def mDirtyNearStable : Monitor :=
  { initMonitor with
    file_states := fun k => if k = "f" then some stFourDirty else none
    dirty_files := ["f"] }

/-! ## Lemmas about the JSON serializer and parser -/

namespace SafeJson

/-! ### Basic lemmas about the lexical helpers -/

theorem skipWs_cons_of_not_ws {c : Char} (h : isWsChar c = false) (r : List Char) :
    skipWs (c :: r) = c :: r := by
  simp [skipWs, h]

theorem skipWs_idem (s : List Char) : skipWs (skipWs s) = skipWs s := by
  induction s with
  | nil => rfl
  | cons c r ih =>
      by_cases h : isWsChar c = true
      · simp [skipWs, h, ih]
      · simp only [Bool.not_eq_true] at h
        simp [skipWs, h]

theorem skipWs_ws_append (w s : List Char) (hw : ∀ c ∈ w, isWsChar c = true) :
    skipWs (w ++ s) = skipWs s := by
  induction w with
  | nil => rfl
  | cons c t ih =>
      have hc : isWsChar c = true := hw c (by simp)
      simp only [List.cons_append, skipWs, hc, if_true]
      exact ih (fun d hd => hw d (by simp [hd]))

theorem indentChars_ws (i d : Nat) : ∀ c ∈ indentChars i d, isWsChar c = true := by
  intro c hc
  have : c = ' ' := List.eq_of_mem_replicate hc
  subst this
  rfl

theorem skipWs_nl_indent (i d : Nat) (s : List Char) :
    skipWs ('\n' :: (indentChars i d ++ s)) = skipWs s := by
  have h := skipWs_ws_append ('\n' :: indentChars i d) s ?_
  · simpa using h
  · intro c hc
    rcases List.mem_cons.mp hc with h1 | h2
    · subst h1; rfl
    · exact indentChars_ws i d c h2

theorem expectChars_append (lit rest : List Char) :
    expectChars lit (lit ++ rest) = some rest := by
  induction lit with
  | nil => rfl
  | cons c t ih => simp [expectChars, ih]

theorem parseVal_skipWs (f : Nat) (s : List Char) :
    parseVal f (skipWs s) = parseVal f s := by
  cases f with
  | zero => rfl
  | succ f => simp only [parseVal, skipWs_idem]

/-! ### Decimal digits -/

theorem digitChar_toNat : ∀ n : Nat, n < 10 → (digitChar n).toNat = 48 + n := by decide

theorem isDigitChar_digitChar : ∀ n : Nat, n < 10 → isDigitChar (digitChar n) = true := by decide

theorem digitVal_digitChar : ∀ n : Nat, n < 10 → digitVal (digitChar n) = n := by decide

theorem digitChar_ne_zero_char : ∀ n : Nat, n < 10 → n ≠ 0 → digitChar n ≠ '0' := by decide

theorem natDigits_ne_nil (n : Nat) : natDigits n ≠ [] := by
  unfold natDigits
  split <;> simp

theorem natDigits_lt_ten (n : Nat) (h : n < 10) : natDigits n = [digitChar n] := by
  unfold natDigits
  simp [h]

theorem natDigits_ge_ten (n : Nat) (h : ¬ n < 10) :
    natDigits n = natDigits (n / 10) ++ [digitChar (n % 10)] := by
  conv_lhs => unfold natDigits
  simp [h]

theorem natDigits_all_digits (n : Nat) : ∀ c ∈ natDigits n, isDigitChar c = true := by
  induction n using Nat.strong_induction_on with
  | _ n ih =>
      by_cases h : n < 10
      · rw [natDigits_lt_ten n h]
        intro c hc
        simp at hc
        subst hc
        exact isDigitChar_digitChar n h
      · rw [natDigits_ge_ten n h]
        intro c hc
        rcases List.mem_append.mp hc with h1 | h2
        · exact ih (n / 10) (Nat.div_lt_self (by omega) (by omega)) c h1
        · simp at h2
          subst h2
          exact isDigitChar_digitChar _ (Nat.mod_lt _ (by omega))

theorem natDigits_head_ne_zero (n : Nat) (hn : n ≠ 0) :
    ∀ c t, natDigits n = c :: t → c ≠ '0' := by
  induction n using Nat.strong_induction_on with
  | _ n ih =>
      intro c t hct
      by_cases h : n < 10
      · rw [natDigits_lt_ten n h] at hct
        injection hct with h1 _
        subst h1
        exact digitChar_ne_zero_char n h hn
      · rw [natDigits_ge_ten n h] at hct
        have hne := natDigits_ne_nil (n / 10)
        obtain ⟨c', t', hct'⟩ := List.exists_cons_of_ne_nil hne
        rw [hct'] at hct
        simp only [List.cons_append] at hct
        injection hct with h1 _
        subst h1
        exact ih (n / 10) (Nat.div_lt_self (by omega) (by omega)) (by omega) c' t' hct'

theorem parseDigits_stop (s : List Char) (acc : Nat) (h : headIsDigit s = false) :
    parseDigits s acc = (acc, s) := by
  cases s with
  | nil => rfl
  | cons c r =>
      simp only [headIsDigit] at h
      simp [parseDigits, h]

theorem parseDigits_run (ds : List Char) (hds : ∀ c ∈ ds, isDigitChar c = true)
    (rest : List Char) (acc : Nat) :
    parseDigits (ds ++ rest) acc =
      parseDigits rest (List.foldl (fun a c => 10 * a + digitVal c) acc ds) := by
  induction ds generalizing acc with
  | nil => rfl
  | cons c t ih =>
      have hc : isDigitChar c = true := hds c (by simp)
      simp only [List.cons_append, parseDigits, hc, if_true, List.foldl_cons]
      exact ih (fun d hd => hds d (by simp [hd])) _

theorem foldl_natDigits (n : Nat) :
    ∀ acc, List.foldl (fun a c => 10 * a + digitVal c) acc (natDigits n) =
      acc * 10 ^ (natDigits n).length + n := by
  induction n using Nat.strong_induction_on with
  | _ n ih =>
      intro acc
      by_cases h : n < 10
      · rw [natDigits_lt_ten n h]
        simp [digitVal_digitChar n h]
        ring
      · rw [natDigits_ge_ten n h]
        rw [List.foldl_append]
        rw [ih (n / 10) (Nat.div_lt_self (by omega) (by omega)) acc]
        simp only [List.foldl_cons, List.foldl_nil, List.length_append, List.length_cons,
          List.length_nil]
        rw [digitVal_digitChar _ (Nat.mod_lt _ (by omega))]
        have hmod := Nat.div_add_mod n 10
        ring_nf
        omega

theorem parseDigits_natDigits (n : Nat) (rest : List Char) (acc : Nat) :
    parseDigits (natDigits n ++ rest) acc =
      parseDigits rest (acc * 10 ^ (natDigits n).length + n) := by
  rw [parseDigits_run (natDigits n) (natDigits_all_digits n) rest acc, foldl_natDigits]

theorem parseNatNum_natDigits (n : Nat) (rest : List Char)
    (h1 : headIsDigit rest = false) (h2 : headIsFloatCue rest = false) :
    parseNatNum (natDigits n ++ rest) = some (n, rest) := by
  obtain ⟨c, t, hct⟩ := List.exists_cons_of_ne_nil (natDigits_ne_nil n)
  have hc : isDigitChar c = true := natDigits_all_digits n c (by rw [hct]; simp)
  have hrun : parseDigits (t ++ rest) (digitVal c) = (n, rest) := by
    have h0 := parseDigits_natDigits n rest 0
    rw [hct] at h0
    simp only [List.cons_append, parseDigits, hc, if_true] at h0
    rw [parseDigits_stop rest _ h1] at h0
    simpa using h0
  have hlead : (c = '0' && headIsDigit (t ++ rest)) = false := by
    by_cases hn : n = 0
    · subst hn
      have : natDigits 0 = [digitChar 0] := natDigits_lt_ten 0 (by omega)
      rw [this] at hct
      injection hct with hc0 ht0
      subst ht0
      simp only [List.nil_append]
      simp [h1]
    · have : c ≠ '0' := natDigits_head_ne_zero n hn c t hct
      simp [this]
  rw [hct]
  simp only [List.cons_append, parseNatNum, hc, if_true]
  rw [hrun]
  simp only [hlead, Bool.false_eq_true, if_false, h2, if_false]

theorem char_minus_not_digit : isDigitChar '-' = false := by decide

/-! ### String escapes -/

theorem hexVal_hexChar : ∀ n : Nat, n < 16 → hexVal (hexChar n) = n := by decide

theorem isHexDigitChar_hexChar : ∀ n : Nat, n < 16 → isHexDigitChar (hexChar n) = true := by
  decide

theorem parseStrBody_escape (s : List Char) (rest : List Char) :
    parseStrBody (escapeChars s ++ '"' :: rest) = some (s, rest) := by
  induction s with
  | nil =>
      simp only [escapeChars, List.nil_append]
      rw [parseStrBody.eq_def]
      simp
  | cons c t ih =>
      simp only [escapeChars, List.append_assoc]
      by_cases h1 : c = '"'
      · subst h1
        rw [show escChar '"' = ['\\', '"'] from rfl, List.cons_append, List.cons_append,
          List.nil_append, parseStrBody.eq_def]
        simp +decide [ih]
      · by_cases h2 : c = '\\'
        · subst h2
          rw [show escChar '\\' = ['\\', '\\'] from rfl, List.cons_append, List.cons_append,
            List.nil_append, parseStrBody.eq_def]
          simp +decide [ih]
        · by_cases h3 : c = '\n'
          · subst h3
            rw [show escChar '\n' = ['\\', 'n'] from rfl, List.cons_append, List.cons_append,
              List.nil_append, parseStrBody.eq_def]
            simp +decide [ih]
          · by_cases h4 : c = '\r'
            · subst h4
              rw [show escChar '\r' = ['\\', 'r'] from rfl, List.cons_append, List.cons_append,
                List.nil_append, parseStrBody.eq_def]
              simp +decide [ih]
            · by_cases h5 : c = '\t'
              · subst h5
                rw [show escChar '\t' = ['\\', 't'] from rfl, List.cons_append, List.cons_append,
                  List.nil_append, parseStrBody.eq_def]
                simp +decide [ih]
              · by_cases h6 : c = '\x08'
                · subst h6
                  rw [show escChar '\x08' = ['\\', 'b'] from rfl, List.cons_append,
                    List.cons_append, List.nil_append, parseStrBody.eq_def]
                  simp +decide [ih]
                · by_cases h7 : c = '\x0c'
                  · subst h7
                    rw [show escChar '\x0c' = ['\\', 'f'] from rfl, List.cons_append,
                      List.cons_append, List.nil_append, parseStrBody.eq_def]
                    simp +decide [ih]
                  · by_cases h8 : c.toNat < 32
                    · have hesc : escChar c =
                          ['\\', 'u', '0', '0', hexChar (c.toNat / 16), hexChar (c.toNat % 16)] := by
                        simp [escChar, h1, h2, h3, h4, h5, h6, h7, h8]
                      rw [hesc]
                      simp only [List.cons_append, List.nil_append]
                      rw [parseStrBody.eq_def]
                      have hdiv : isHexDigitChar (hexChar (c.toNat / 16)) = true :=
                        isHexDigitChar_hexChar _ (by omega)
                      have hmod : isHexDigitChar (hexChar (c.toNat % 16)) = true :=
                        isHexDigitChar_hexChar _ (Nat.mod_lt _ (by omega))
                      have hdv : hexVal (hexChar (c.toNat / 16)) = c.toNat / 16 :=
                        hexVal_hexChar _ (by omega)
                      have hmv : hexVal (hexChar (c.toNat % 16)) = c.toNat % 16 :=
                        hexVal_hexChar _ (Nat.mod_lt _ (by omega))
                      have hn : (hexVal '0' * 4096 + hexVal '0' * 256 +
                          hexVal (hexChar (c.toNat / 16)) * 16 + hexVal (hexChar (c.toNat % 16)))
                          = c.toNat := by
                        rw [hdv, hmv]
                        have := Nat.div_add_mod c.toNat 16
                        simp [hexVal]
                        omega
                      have hvalid : Nat.isValidChar (c.toNat) := Or.inl (by omega)
                      simp +decide [hdiv, hmod, hn, hvalid, Char.ofNat_toNat, ih]
                    · have hesc : escChar c = [c] := by
                        simp [escChar, h1, h2, h3, h4, h5, h6, h7, h8]
                      rw [hesc]
                      simp only [List.cons_append, List.nil_append]
                      rw [parseStrBody.eq_def]
                      simp [h1, h2, h8, ih]

theorem parseNumber_intDigits (k : Int) (rest : List Char)
    (h1 : headIsDigit rest = false) (h2 : headIsFloatCue rest = false) :
    parseNumber (intDigits k ++ rest) = some (k, rest) := by
  by_cases hk : k < 0
  · simp only [intDigits, hk, if_true, List.cons_append, parseNumber, if_pos rfl]
    rw [parseNatNum_natDigits _ rest h1 h2]
    simp only [Option.map_some']
    congr 1
    have : ((-k).toNat : Int) = -k := Int.toNat_of_nonneg (by omega)
    rw [this]
    simp
  · simp only [intDigits, hk, if_false]
    obtain ⟨c, t, hct⟩ := List.exists_cons_of_ne_nil (natDigits_ne_nil k.toNat)
    have hc : isDigitChar c = true := natDigits_all_digits _ c (by rw [hct]; simp)
    have hcm : c ≠ '-' := by
      intro hEq
      rw [hEq] at hc
      rw [char_minus_not_digit] at hc
      exact Bool.false_ne_true hc
    rw [hct]
    simp only [List.cons_append, parseNumber, hcm, if_neg hcm]
    rw [← List.cons_append, ← hct, parseNatNum_natDigits _ rest h1 h2]
    simp only [Option.map_some']
    have hcast : ((k.toNat : Int)) = k := Int.toNat_of_nonneg (by omega)
    rw [hcast]
    simp

/-! ### Head-shape facts used for parser dispatch -/

theorem sizeV_pos (v : JsonVal) : 1 ≤ sizeV v := by
  cases v <;> simp [sizeV]

theorem sizeA_pos (l : JsonArr) : 1 ≤ sizeA l := by
  cases l with
  | nil => simp [sizeA]
  | cons x t => simp only [sizeA]; omega

theorem sizeO_pos (ms : JsonObj) : 1 ≤ sizeO ms := by
  cases ms with
  | nil => simp [sizeO]
  | cons k v t => simp only [sizeO]; omega

theorem digit_not_ws (c : Char) (h : isDigitChar c = true) : isWsChar c = false := by
  apply Bool.eq_false_iff.mpr
  intro hw
  simp [isWsChar] at hw
  rcases hw with ((rfl | rfl) | rfl) | rfl <;> exact absurd h (by decide)

theorem digit_not_stripws (c : Char) (h : isDigitChar c = true) : isStripWs c = false := by
  apply Bool.eq_false_iff.mpr
  intro hw
  simp [isStripWs] at hw
  rcases hw with ((((rfl | rfl) | rfl) | rfl) | rfl) | rfl <;> exact absurd h (by decide)

theorem digit_dispatch (c : Char) (h : isDigitChar c = true) :
    isWsChar c = false ∧ c ≠ 'n' ∧ c ≠ 't' ∧ c ≠ 'f' ∧ c ≠ '"' ∧ c ≠ '[' ∧
      c ≠ lbrace ∧ c ≠ ']' ∧ isStripWs c = false := by
  refine ⟨digit_not_ws c h, ?_, ?_, ?_, ?_, ?_, ?_, ?_, digit_not_stripws c h⟩ <;>
    (rintro rfl; exact absurd h (by decide))

theorem dchars_head (v : JsonVal) (i d : Nat) :
    ∃ c t, dchars i d v = c :: t ∧ isWsChar c = false ∧ c ≠ ']' ∧ isStripWs c = false := by
  cases v with
  | null => exact ⟨'n', _, rfl, rfl, by decide, rfl⟩
  | bool b =>
      cases b
      · exact ⟨'f', _, rfl, rfl, by decide, rfl⟩
      · exact ⟨'t', _, rfl, rfl, by decide, rfl⟩
  | num n =>
      by_cases hn : n < 0
      · refine ⟨'-', natDigits (-n).toNat, ?_, by decide, by decide, by decide⟩
        simp [dchars, intDigits, hn]
      · obtain ⟨c, t, hct⟩ := List.exists_cons_of_ne_nil (natDigits_ne_nil n.toNat)
        have hc : isDigitChar c = true := natDigits_all_digits _ c (by rw [hct]; simp)
        obtain ⟨hws, _, _, _, _, _, _, hrb, hstrip⟩ := digit_dispatch c hc
        refine ⟨c, t, ?_, hws, hrb, hstrip⟩
        simp [dchars, intDigits, hn, hct]
  | str s => exact ⟨'"', _, rfl, rfl, by decide, rfl⟩
  | arr l =>
      cases l
      · exact ⟨'[', _, rfl, rfl, by decide, rfl⟩
      · exact ⟨'[', _, rfl, rfl, by decide, rfl⟩
  | obj ms =>
      cases ms
      · exact ⟨lbrace, _, rfl, rfl, by decide, rfl⟩
      · exact ⟨lbrace, _, rfl, rfl, by decide, rfl⟩

theorem arrTail_rest_head (l : JsonArr) (i d : Nat) (z : List Char) :
    headIsDigit (dcharsArrTail i d l ++ '\n' :: z) = false ∧
      headIsFloatCue (dcharsArrTail i d l ++ '\n' :: z) = false := by
  cases l <;> simp +decide [dcharsArrTail, headIsDigit, headIsFloatCue]

theorem objTail_rest_head (ms : JsonObj) (i d : Nat) (z : List Char) :
    headIsDigit (dcharsObjTail i d ms ++ '\n' :: z) = false ∧
      headIsFloatCue (dcharsObjTail i d ms ++ '\n' :: z) = false := by
  cases ms <;> simp +decide [dcharsObjTail, headIsDigit, headIsFloatCue]

theorem parseVal_drop_leading_ws (f : Nat) (w s : List Char) (hw : ∀ c ∈ w, isWsChar c = true) :
    parseVal f (w ++ s) = parseVal f s := by
  rw [← parseVal_skipWs f (w ++ s), skipWs_ws_append w s hw, parseVal_skipWs]

theorem parseVal_nl_indent (f i d : Nat) (s : List Char) :
    parseVal f ('\n' :: (indentChars i d ++ s)) = parseVal f s := by
  have h := parseVal_drop_leading_ws f ('\n' :: indentChars i d) s ?_
  · simpa using h
  · intro c hc
    rcases List.mem_cons.mp hc with h1 | h2
    · subst h1; rfl
    · exact indentChars_ws i d c h2

theorem parseVal_space (f : Nat) (s : List Char) :
    parseVal f (' ' :: s) = parseVal f s := by
  have h := parseVal_drop_leading_ws f [' '] s (by intro c hc; simp at hc; subst hc; rfl)
  simpa using h

/-! ### The round trip: the parser inverts the serializer -/

mutual
theorem parseVal_dchars (v : JsonVal) (i d f : Nat) (rest : List Char)
    (hf : sizeV v ≤ f) (h1 : headIsDigit rest = false) (h2 : headIsFloatCue rest = false) :
    parseVal f (dchars i d v ++ rest) = some (v, rest) := by
  obtain ⟨f', rfl⟩ : ∃ f', f = f' + 1 := ⟨f - 1, by have := sizeV_pos v; omega⟩
  cases v with
  | null =>
      rw [show dchars i d .null = ['n', 'u', 'l', 'l'] from rfl]
      rw [parseVal.eq_def]
      simp +decide [skipWs, expectChars]
  | bool b =>
      cases b with
      | true =>
          rw [show dchars i d (.bool true) = ['t', 'r', 'u', 'e'] from rfl]
          rw [parseVal.eq_def]
          simp +decide [skipWs, expectChars]
      | false =>
          rw [show dchars i d (.bool false) = ['f', 'a', 'l', 's', 'e'] from rfl]
          rw [parseVal.eq_def]
          simp +decide [skipWs, expectChars]
  | str s =>
      rw [show dchars i d (.str s) = '"' :: escapeChars s ++ ['"'] from rfl]
      rw [parseVal.eq_def]
      simp +decide [skipWs, parseStrBody_escape]
  | num n =>
      rw [show dchars i d (.num n) = intDigits n from rfl]
      by_cases hn : n < 0
      · rw [show intDigits n = '-' :: natDigits (-n).toNat from by simp [intDigits, hn]]
        rw [parseVal.eq_def]
        simp only [List.cons_append]
        rw [skipWs_cons_of_not_ws (by decide)]
        simp +decide only []
        rw [show ('-' :: (natDigits (-n).toNat ++ rest)) = intDigits n ++ rest from by
          simp [intDigits, hn]]
        rw [parseNumber_intDigits n rest h1 h2]
        rfl
      · obtain ⟨c, t, hct⟩ := List.exists_cons_of_ne_nil (natDigits_ne_nil n.toNat)
        have hc : isDigitChar c = true := natDigits_all_digits _ c (by rw [hct]; simp)
        obtain ⟨hws, hn1, hn2, hn3, hn4, hn5, hn6, _, _⟩ := digit_dispatch c hc
        rw [show intDigits n = c :: t from by simp [intDigits, hn, hct]]
        rw [parseVal.eq_def]
        simp only [List.cons_append]
        rw [skipWs_cons_of_not_ws hws]
        simp only [hn1, hn2, hn3, hn4, hn5, hn6, if_neg, hc, Bool.or_true, if_true]
        rw [show (c :: (t ++ rest)) = intDigits n ++ rest from by simp [intDigits, hn, hct]]
        rw [parseNumber_intDigits n rest h1 h2]
        rfl
  | arr l =>
      cases l with
      | nil =>
          rw [show dchars i d (.arr .nil) = ['[', ']'] from rfl]
          rw [parseVal.eq_def]
          simp +decide [skipWs]
      | cons x xs =>
          have hfx : sizeV x ≤ f' := by simp only [sizeV, sizeA] at hf; omega
          have hfl : sizeA xs ≤ f' := by simp only [sizeV, sizeA] at hf; omega
          rw [show dchars i d (.arr (.cons x xs)) =
            '[' :: '\n' :: indentChars i (d + 1) ++ dchars i (d + 1) x ++
              dcharsArrTail i (d + 1) xs ++ '\n' :: indentChars i d ++ [']'] from rfl]
          rw [parseVal.eq_def]
          simp only [List.cons_append, List.append_assoc, List.nil_append]
          rw [skipWs_cons_of_not_ws (by decide)]
          simp +decide only []
          rw [skipWs_nl_indent]
          obtain ⟨c, t, hx, hws, hrb, _⟩ := dchars_head x i (d + 1)
          rw [hx]
          simp only [List.cons_append]
          rw [skipWs_cons_of_not_ws hws]
          simp only [if_neg hrb, if_true, if_false]
          rw [show c :: (t ++ (dcharsArrTail i (d + 1) xs ++ '\n' :: (indentChars i d ++ ']' :: rest)))
              = dchars i (d + 1) x ++
                  (dcharsArrTail i (d + 1) xs ++ ('\n' :: (indentChars i d ++ (']' :: rest))))
            from by rw [hx]; simp]
          rw [parseVal_dchars x i (d + 1) f' _ hfx
            (arrTail_rest_head xs i (d + 1) _).1 (arrTail_rest_head xs i (d + 1) _).2]
          simp only [Option.bind_eq_bind, Option.some_bind]
          rw [parseArrTail_dchars xs i (d + 1) d f' rest hfl]
          rfl
  | obj ms =>
      cases ms with
      | nil =>
          rw [show dchars i d (.obj .nil) = [lbrace, rbrace] from rfl]
          rw [parseVal.eq_def]
          simp +decide [skipWs, lbrace, rbrace]
      | cons k w t =>
          have hfw : sizeV w ≤ f' := by simp only [sizeV, sizeO] at hf; omega
          have hft : sizeO t ≤ f' := by simp only [sizeV, sizeO] at hf; omega
          rw [show dchars i d (.obj (.cons k w t)) =
            lbrace :: '\n' :: indentChars i (d + 1) ++
              ('"' :: escapeChars k ++ '"' :: ':' :: ' ' :: dchars i (d + 1) w) ++
              dcharsObjTail i (d + 1) t ++ '\n' :: indentChars i d ++ [rbrace] from rfl]
          rw [parseVal.eq_def]
          simp only [List.cons_append, List.append_assoc, List.nil_append]
          rw [skipWs_cons_of_not_ws (by decide)]
          simp +decide only []
          rw [skipWs_nl_indent]
          rw [skipWs_cons_of_not_ws (show isWsChar '"' = false from by decide)]
          simp +decide only []
          rw [show escapeChars k ++ '"' :: (':' :: (' ' :: (dchars i (d + 1) w ++
                (dcharsObjTail i (d + 1) t ++ '\n' :: (indentChars i d ++ rbrace :: rest)))))
              = escapeChars k ++ '"' :: (':' :: (' ' :: (dchars i (d + 1) w ++
                (dcharsObjTail i (d + 1) t ++ '\n' :: (indentChars i d ++ rbrace :: rest)))))
            from rfl]
          rw [parseStrBody_escape k]
          simp only [Option.bind_eq_bind, Option.some_bind]
          rw [skipWs_cons_of_not_ws (show isWsChar ':' = false from by decide)]
          simp +decide only []
          rw [parseVal_space]
          rw [parseVal_dchars w i (d + 1) f' _ hfw
            (objTail_rest_head t i (d + 1) _).1 (objTail_rest_head t i (d + 1) _).2]
          simp only [Option.bind_eq_bind, Option.some_bind]
          rw [parseObjTail_dchars t i (d + 1) d f' rest hft]
          rfl
theorem parseArrTail_dchars (l : JsonArr) (i din dout f : Nat) (rest : List Char)
    (hf : sizeA l ≤ f) :
    parseArrTail f (dcharsArrTail i din l ++ '\n' :: (indentChars i dout ++ (']' :: rest)))
      = some (l, rest) := by
  obtain ⟨f', rfl⟩ : ∃ f', f = f' + 1 := ⟨f - 1, by have := sizeA_pos l; omega⟩
  cases l with
  | nil =>
      rw [show dcharsArrTail i din .nil = [] from rfl, List.nil_append]
      rw [parseArrTail.eq_def]
      simp +decide [skipWs_nl_indent]
      rw [skipWs_cons_of_not_ws (by decide)]
      simp only [if_true, if_false]
  | cons x xs =>
      have hfx : sizeV x ≤ f' := by simp only [sizeA] at hf; omega
      have hfl : sizeA xs ≤ f' := by simp only [sizeA] at hf; omega
      rw [show dcharsArrTail i din (.cons x xs) =
        ',' :: '\n' :: indentChars i din ++ dchars i din x ++ dcharsArrTail i din xs from rfl]
      rw [parseArrTail.eq_def]
      simp only [List.cons_append, List.append_assoc, List.nil_append]
      rw [skipWs_cons_of_not_ws (by decide)]
      simp +decide only []
      rw [parseVal_nl_indent]
      rw [parseVal_dchars x i din f' _ hfx
        (arrTail_rest_head xs i din _).1 (arrTail_rest_head xs i din _).2]
      simp only [Option.bind_eq_bind, Option.some_bind]
      rw [parseArrTail_dchars xs i din dout f' rest hfl]
      rfl
theorem parseObjTail_dchars (ms : JsonObj) (i din dout f : Nat) (rest : List Char)
    (hf : sizeO ms ≤ f) :
    parseObjTail f (dcharsObjTail i din ms ++ '\n' :: (indentChars i dout ++ (rbrace :: rest)))
      = some (ms, rest) := by
  obtain ⟨f', rfl⟩ : ∃ f', f = f' + 1 := ⟨f - 1, by have := sizeO_pos ms; omega⟩
  cases ms with
  | nil =>
      rw [show dcharsObjTail i din .nil = [] from rfl, List.nil_append]
      rw [parseObjTail.eq_def]
      simp +decide [skipWs_nl_indent]
      rw [skipWs_cons_of_not_ws (by decide)]
      simp only [if_true, if_false]
  | cons k w t =>
      have hfw : sizeV w ≤ f' := by simp only [sizeO] at hf; omega
      have hft : sizeO t ≤ f' := by simp only [sizeO] at hf; omega
      rw [show dcharsObjTail i din (.cons k w t) =
        ',' :: '\n' :: indentChars i din ++
          ('"' :: escapeChars k ++ '"' :: ':' :: ' ' :: dchars i din w) ++
          dcharsObjTail i din t from rfl]
      rw [parseObjTail.eq_def]
      simp only [List.cons_append, List.append_assoc, List.nil_append]
      rw [skipWs_cons_of_not_ws (by decide)]
      simp +decide only []
      rw [skipWs_nl_indent]
      rw [skipWs_cons_of_not_ws (show isWsChar '"' = false from by decide)]
      simp +decide only []
      rw [parseStrBody_escape k]
      simp only [Option.bind_eq_bind, Option.some_bind]
      rw [skipWs_cons_of_not_ws (show isWsChar ':' = false from by decide)]
      simp +decide only []
      rw [parseVal_space]
      rw [parseVal_dchars w i din f' _ hfw
        (objTail_rest_head t i din _).1 (objTail_rest_head t i din _).2]
      simp only [Option.bind_eq_bind, Option.some_bind]
      rw [parseObjTail_dchars t i din dout f' rest hft]
      rfl
end

/-! ### Serialized length bounds the parser fuel -/

mutual
theorem sizeV_le_dchars (v : JsonVal) (i d : Nat) : sizeV v ≤ (dchars i d v).length + 1 := by
  cases v with
  | null => simp [dchars, sizeV]
  | bool b => cases b <;> simp [dchars, sizeV]
  | num n => simp only [sizeV]; omega
  | str s => simp only [sizeV]; omega
  | arr l =>
      cases l with
      | nil => simp [dchars, sizeV, sizeA]
      | cons x xs =>
          have h1 := sizeV_le_dchars x i (d + 1)
          have h2 := sizeA_le_dcharsArrTail xs i (d + 1)
          simp only [dchars, sizeV, sizeA, List.length_append, List.length_cons]
          omega
  | obj ms =>
      cases ms with
      | nil => simp [dchars, sizeV, sizeO]
      | cons k w t =>
          have h1 := sizeV_le_dchars w i (d + 1)
          have h2 := sizeO_le_dcharsObjTail t i (d + 1)
          simp only [dchars, sizeV, sizeO, List.length_append, List.length_cons]
          omega
theorem sizeA_le_dcharsArrTail (l : JsonArr) (i d : Nat) :
    sizeA l ≤ (dcharsArrTail i d l).length + 1 := by
  cases l with
  | nil => simp [dcharsArrTail, sizeA]
  | cons x xs =>
      have h1 := sizeV_le_dchars x i d
      have h2 := sizeA_le_dcharsArrTail xs i d
      simp only [dcharsArrTail, sizeA, List.length_append, List.length_cons]
      omega
theorem sizeO_le_dcharsObjTail (ms : JsonObj) (i d : Nat) :
    sizeO ms ≤ (dcharsObjTail i d ms).length + 1 := by
  cases ms with
  | nil => simp [dcharsObjTail, sizeO]
  | cons k w t =>
      have h1 := sizeV_le_dchars w i d
      have h2 := sizeO_le_dcharsObjTail t i d
      simp only [dcharsObjTail, sizeO, List.length_append, List.length_cons]
      omega
end

/-- `json.loads` inverts `json.dumps` on every JSON value, for every indent. -/
theorem json_loads_dumps (i : Nat) (v : JsonVal) : json_loads (json_dumps i v) = some v := by
  unfold json_loads json_dumps
  have hfuel : sizeV v ≤ (dchars i 0 v).length + 2 :=
    le_trans (sizeV_le_dchars v i 0) (by omega)
  have h := parseVal_dchars v i 0 ((dchars i 0 v).length + 2) [] hfuel rfl rfl
  rw [List.append_nil] at h
  simp only [String.mk] at *
  simp [h, skipWs]

/-! ### `strip` leaves serialized JSON unchanged -/

theorem natDigits_last_digit (n : Nat) :
    ∃ c, (natDigits n).getLast? = some c ∧ isDigitChar c = true := by
  induction n using Nat.strong_induction_on with
  | _ n ih =>
      by_cases h : n < 10
      · rw [natDigits_lt_ten n h]
        exact ⟨digitChar n, rfl, isDigitChar_digitChar n h⟩
      · rw [natDigits_ge_ten n h]
        exact ⟨digitChar (n % 10), List.getLast?_concat _,
          isDigitChar_digitChar _ (Nat.mod_lt _ (by omega))⟩

theorem dchars_last (v : JsonVal) (i d : Nat) :
    ∃ c, (dchars i d v).getLast? = some c ∧ isStripWs c = false := by
  cases v with
  | null => exact ⟨'l', rfl, by decide⟩
  | bool b => cases b with
      | true => exact ⟨'e', rfl, by decide⟩
      | false => exact ⟨'e', rfl, by decide⟩
  | num n =>
      by_cases hn : n < 0
      · obtain ⟨c, hc, hdig⟩ := natDigits_last_digit (-n).toNat
        refine ⟨c, ?_, digit_not_stripws c hdig⟩
        rw [show dchars i d (.num n) = '-' :: natDigits (-n).toNat from by
          simp [dchars, intDigits, hn]]
        rw [List.getLast?_cons, hc]
        rfl
      · obtain ⟨c, hc, hdig⟩ := natDigits_last_digit n.toNat
        refine ⟨c, ?_, digit_not_stripws c hdig⟩
        rw [show dchars i d (.num n) = natDigits n.toNat from by simp [dchars, intDigits, hn]]
        exact hc
  | str s =>
      refine ⟨'"', ?_, by decide⟩
      rw [show dchars i d (.str s) = ('"' :: escapeChars s) ++ ['"'] from rfl]
      exact List.getLast?_concat _
  | arr l =>
      cases l with
      | nil => exact ⟨']', rfl, by decide⟩
      | cons x xs =>
          refine ⟨']', ?_, by decide⟩
          rw [show dchars i d (.arr (.cons x xs)) =
            ('[' :: '\n' :: indentChars i (d + 1) ++ dchars i (d + 1) x ++
              dcharsArrTail i (d + 1) xs ++ '\n' :: indentChars i d) ++ [']'] from rfl]
          exact List.getLast?_concat _
  | obj ms =>
      cases ms with
      | nil =>
          refine ⟨rbrace, ?_, by decide⟩
          rw [show dchars i d (.obj .nil) = [lbrace] ++ [rbrace] from rfl]
          exact List.getLast?_concat _
      | cons k w t =>
          refine ⟨rbrace, ?_, by decide⟩
          rw [show dchars i d (.obj (.cons k w t)) =
            (lbrace :: '\n' :: indentChars i (d + 1) ++
              ('"' :: escapeChars k ++ '"' :: ':' :: ' ' :: dchars i (d + 1) w) ++
              dcharsObjTail i (d + 1) t ++ '\n' :: indentChars i d) ++ [rbrace] from rfl]
          exact List.getLast?_concat _

theorem pstrip_eq_self (l : List Char)
    (hh : ∀ c, l.head? = some c → isStripWs c = false)
    (hl : ∀ c, l.getLast? = some c → isStripWs c = false) :
    pstrip (String.mk l) = String.mk l := by
  cases l with
  | nil => rfl
  | cons a t =>
      unfold pstrip
      have h1 : (a :: t).dropWhile isStripWs = a :: t := by
        rw [List.dropWhile_cons_of_neg]
        simp [hh a rfl]
      rw [show (String.mk (a :: t)).data = a :: t from rfl, h1]
      obtain ⟨b, r, hbr⟩ : ∃ b r, (a :: t).reverse = b :: r :=
        List.exists_cons_of_ne_nil (by simp)
      have hb : (a :: t).getLast? = some b := by
        rw [← List.head?_reverse, hbr]
        rfl
      rw [hbr, List.dropWhile_cons_of_neg (by simp [hl b hb])]
      rw [← hbr, List.reverse_reverse]

theorem pstrip_dumps (i : Nat) (v : JsonVal) : pstrip (json_dumps i v) = json_dumps i v := by
  unfold json_dumps
  apply pstrip_eq_self
  · intro c hc
    obtain ⟨c', t', h', hws, _, hstrip⟩ := dchars_head v i 0
    rw [h'] at hc
    simp at hc
    subst hc
    exact hstrip
  · intro c hc
    obtain ⟨c', h', hstrip⟩ := dchars_last v i 0
    rw [h'] at hc
    injection hc with hc
    subst hc
    exact hstrip

theorem json_dumps_ne_empty (i : Nat) (v : JsonVal) : json_dumps i v ≠ "" := by
  obtain ⟨c, t, h, _, _, _⟩ := dchars_head v i 0
  unfold json_dumps
  rw [h]
  intro hEq
  have : (String.mk (c :: t)).data = ("" : String).data := by rw [hEq]
  simp at this

end SafeJson

namespace CMonitor

theorem mem_setAdd_self (s : List String) (x : String) : x ∈ setAdd s x := by
  by_cases h : x ∈ s <;> simp [setAdd, h]

theorem not_mem_setDiscard (s : List String) (x : String) : x ∉ setDiscard s x := by
  simp [setDiscard]

end CMonitor

/-! ## Claims about the Lock-Protected Store -/

open SafeJson in
/-- C1: the claim — that every intermediate step of `safe_json_write` leaves
the target a complete valid JSON document or absent, never empty — fails on
the code: when writing onto an existing target holding `"[]"`, the
lock-acquisition step `open(file_path, 'w')` truncates the target to the
empty string (an existing file that is not valid JSON) before the rename.
This theorem evaluates the step trace at that failing input. -/
theorem write_trace_truncates_existing_target :
    some "" ∈ safe_json_write_targetTrace (some "[]") JsonVal.null 2 ∧
      jsonFileOk (some "") = false ∧ jsonFileOk (some "[]") = true := by
  refine ⟨?_, ?_, ?_⟩ <;> decide

open SafeJson in
/-- C2: for every JSON value `v`, every initial file state and every path,
a successful `safe_json_write(p, v)` followed by `safe_json_read(p)`
returns exactly `v` (round trip), for any indent. -/
theorem write_read_round_trip (fs : WriteFS) (path : String) (v d : JsonVal)
    (indent : Nat) :
    (safe_json_write fs path v indent true none).1 = .ok true ∧
      safe_json_read path true (safe_json_write fs path v indent true none).2.target d
        = .ok v := by
  constructor
  · simp [safe_json_write]
  · show safe_json_read path true (some (json_dumps indent v)) d = .ok v
    unfold safe_json_read
    simp only [if_true]
    rw [pstrip_dumps]
    rw [if_neg (json_dumps_ne_empty indent v)]
    rw [json_loads_dumps]

open SafeJson in
/-- C3 (counterexample): a file whose content is a single space is
non-empty and not valid JSON, yet `safe_json_read` returns the default
instead of failing with an invalid-format error, because the code strips
the content before the emptiness test.  This refutes the claim's "fails
with InvalidFormat exactly when the content is non-empty and not valid
JSON". -/
theorem read_whitespace_file_returns_default :
    safe_json_read "p" true (some " ") JsonVal.null = .ok JsonVal.null ∧
      (" " : String) ≠ "" ∧ json_loads " " = none :=
  ⟨rfl, by decide, rfl⟩

open SafeJson in
/-- C3 (amended): with the lock acquired, `safe_json_read` returns the
default when the path does not exist and when the *stripped* content is
empty (so also for whitespace-only files); returns the parsed value when
the stripped content is valid JSON; and fails with the "Invalid JSON"
`SafeJSONError` exactly when the stripped content is non-empty and not
valid JSON.  A missing file never raises. -/
theorem read_contract (path : String) (c : String) (d v : JsonVal) :
    (safe_json_read path true none d = .ok d) ∧
      (pstrip c = "" → safe_json_read path true (some c) d = .ok d) ∧
      (json_loads (pstrip c) = some v → safe_json_read path true (some c) d = .ok v) ∧
      (safe_json_read path true (some c) d =
          .error (.safeJSONError ("Invalid JSON in " ++ path)) ↔
        (pstrip c ≠ "" ∧ json_loads (pstrip c) = none)) := by
  refine ⟨rfl, ?_, ?_, ?_⟩
  · intro h
    unfold safe_json_read
    simp [h]
  · intro h
    unfold safe_json_read
    have hne : ¬ pstrip c = "" := by
      intro hEq
      rw [hEq] at h
      exact Option.noConfusion (h.symm.trans rfl)
    simp [hne, h]
  · unfold safe_json_read
    by_cases h0 : pstrip c = ""
    · simp [h0]
    · simp only [if_true, if_neg h0]
      cases hload : json_loads (pstrip c) with
      | none => simp [h0]
      | some w => simp [h0]

open SafeJson in
/-- C3 (amended) witness: reading a file containing `" 0 "` with the lock
acquired parses to the number 0. -/
theorem read_contract_witness :
    safe_json_read "p" true (some " 0 ") JsonVal.null = .ok (JsonVal.num 0) :=
  (read_contract "p" " 0 " JsonVal.null (JsonVal.num 0)).2.2.1 (by rfl)

open SafeJson in
/-- C4: when `safe_json_write` with `backup=true` onto an existing target
fails at any step after the temp file has been created, the temp file is
removed, the backup (copied from the target at the start) is copied back
over the target restoring its prior content, and the call fails with a
`SafeJSONError` whose message carries the underlying cause. -/
theorem write_failure_cleanup (fs : WriteFS) (path : String) (v : JsonVal)
    (indent : Nat) (c : String) (step : WriteStep) (cause : String)
    (htgt : fs.target = some c) (hstep : step ≠ WriteStep.mkstempStep) :
    (safe_json_write fs path v indent true (some (step, cause))).1 =
        .error (.safeJSONError ("Error writing " ++ path ++ ": " ++ cause)) ∧
      (safe_json_write fs path v indent true (some (step, cause))).2.temp = none ∧
      (safe_json_write fs path v indent true (some (step, cause))).2.target = some c := by
  cases step with
  | mkstempStep => exact absurd rfl hstep
  | writeTempStep =>
      refine ⟨?_, ?_, ?_⟩ <;> simp [safe_json_write, writeCleanup, htgt]
  | lockStep =>
      refine ⟨?_, ?_, ?_⟩ <;> simp [safe_json_write, writeCleanup, htgt]
  | renameStep =>
      refine ⟨?_, ?_, ?_⟩ <;> simp [safe_json_write, writeCleanup, htgt]

open SafeJson in
/-- C4 witness: a rename failure on a target holding `"[]"` removes the
temp file, restores `"[]"` and raises the wrapped error. -/
theorem write_failure_cleanup_witness :
    (safe_json_write ⟨some "[]", none, none⟩ "p" JsonVal.null 2 true
        (some (WriteStep.renameStep, "rename failed"))).1 =
        .error (.safeJSONError "Error writing p: rename failed") ∧
      (safe_json_write ⟨some "[]", none, none⟩ "p" JsonVal.null 2 true
        (some (WriteStep.renameStep, "rename failed"))).2.temp = none ∧
      (safe_json_write ⟨some "[]", none, none⟩ "p" JsonVal.null 2 true
        (some (WriteStep.renameStep, "rename failed"))).2.target = some "[]" := by
  have h := write_failure_cleanup ⟨some "[]", none, none⟩ "p" JsonVal.null 2 "[]"
    WriteStep.renameStep "rename failed" rfl (by decide)
  simpa using h

open SafeJson in
/-- Auxiliary induction for the lock retry loop: when every attempt fails
and at least one iteration remains, the loop ends in the lock-timeout
`SafeJSONError` and the sleep executed after the `k`-th failed attempt is
`retry_delay * 2 ^ min k 4`. -/
theorem lockLoop_all_fail (path : String) (max_retries : Nat) (delay : ℚ) :
    ∀ fuel retries, retries + fuel = max_retries → 1 ≤ fuel →
      lockLoop path (fun _ => false) max_retries delay retries fuel =
        (.error (.safeJSONError ("Failed to acquire lock on " ++ path ++ " after " ++
            toString max_retries ++ " retries")),
          (List.range (fuel - 1)).map (fun j => delay * 2 ^ min (retries + j + 1) 4)) := by
  intro fuel
  induction fuel with
  | zero => intro retries _ h1; omega
  | succ f ih =>
      intro retries hsum _
      cases f with
      | zero =>
          simp only [lockLoop, Bool.false_eq_true, if_false]
          rw [if_pos (by omega)]
          simp
      | succ f' =>
          conv_lhs => rw [lockLoop]
          simp only [Bool.false_eq_true, if_false]
          rw [if_neg (by omega)]
          rw [ih (retries + 1) (by omega) (by omega)]
          simp only [Nat.add_sub_cancel]
          rw [List.range_succ_eq_map, List.map_cons, List.map_map]
          refine congrArg _ ?_
          refine congrArg₂ _ (by norm_num) ?_
          apply List.map_congr_left
          intro j _
          simp only [Function.comp_apply]
          have harg : retries + 1 + j + 1 = retries + Nat.succ j + 1 := by omega
          rw [harg]

open SafeJson in
/-- C5: lock acquisition is a bounded retry loop: when no attempt acquires
the lock, the `k`-th failed attempt (for `k = 1, …, max_retries - 1`) backs
off by sleeping `retry_delay * 2 ^ min k 4`, and after `max_retries` failed
attempts the call fails with the lock-timeout `SafeJSONError` instead of
blocking. -/
theorem lock_retry_backoff (path : String) (max_retries : Nat) (delay : ℚ)
    (hm : 1 ≤ max_retries) :
    SafeJSONLock_enter path (fun _ => false) max_retries delay =
      (.error (.safeJSONError ("Failed to acquire lock on " ++ path ++ " after " ++
          toString max_retries ++ " retries")),
        (List.range (max_retries - 1)).map (fun k => delay * 2 ^ min (k + 1) 4)) := by
  unfold SafeJSONLock_enter
  rw [lockLoop_all_fail path max_retries delay max_retries 0 (by omega) hm]
  simp

open SafeJson in
/-- C5 witness: with `max_retries = 3` and `retry_delay = 1`, the two
back-off sleeps are `2` and `4` seconds and the lock-timeout error is
raised. -/
theorem lock_retry_backoff_witness :
    SafeJSONLock_enter "p" (fun _ => false) 3 1 =
      (.error (.safeJSONError "Failed to acquire lock on p after 3 retries"),
        [2, 4]) := by
  have h := lock_retry_backoff "p" 3 1 (by decide)
  rw [h]
  norm_num [List.range_succ]
  rfl

/-! ## Claim C6: failure kinds -/

open SafeJson in
/-- C6 (counterexample): two different failure conditions raise exceptions
of the same Python class `SafeJSONError`, so a caller cannot tell them
apart by the kind of the raised failure alone. -/
theorem error_kinds_indistinguishable :
    (raisedOn "p" .invalidFormat).className = (raisedOn "p" .lockTimeout).className ∧
      FailCondition.invalidFormat ≠ FailCondition.lockTimeout :=
  ⟨rfl, by decide⟩

open SafeJson in
/-- Strings with different first characters are different. -/
theorem string_ne_of_head_ne (s₁ s₂ : String) (c d : Char)
    (h1 : s₁.data.head? = some c) (h2 : s₂.data.head? = some d) (hcd : c ≠ d) :
    s₁ ≠ s₂ := by
  intro hEq
  rw [hEq, h2] at h1
  injection h1 with h1
  exact hcd h1.symm

open SafeJson in
/-- C6 (amended): all three conditions surface to the caller as the single
catchable class `SafeJSONError`; the condition is recoverable only from the
message text (the three messages are pairwise distinct), not from the kind
of the raised failure. -/
theorem error_kinds_single_class (path : String) :
    ((raisedOn path .invalidFormat).className = "SafeJSONError" ∧
      (raisedOn path .lockTimeout).className = "SafeJSONError" ∧
      (raisedOn path .writeFailed).className = "SafeJSONError") ∧
    ((raisedOn path .invalidFormat).message ≠ (raisedOn path .lockTimeout).message ∧
      (raisedOn path .invalidFormat).message ≠ (raisedOn path .writeFailed).message ∧
      (raisedOn path .lockTimeout).message ≠ (raisedOn path .writeFailed).message) := by
  refine ⟨⟨rfl, rfl, rfl⟩, ?_, ?_, ?_⟩
  · exact string_ne_of_head_ne _ _ 'I' 'F' rfl rfl (by decide)
  · exact string_ne_of_head_ne _ _ 'I' 'E' rfl rfl (by decide)
  · exact string_ne_of_head_ne _ _ 'F' 'E' rfl rfl (by decide)

/-! ## Claims about the Consistency Monitor -/

open CMonitor in
/-- C7 (counterexample): a check of the stable path `"f"` observes a
changed signature `(2, 1)` but content that still validates (`"[]"`): the
path stays in the stable set and is not marked dirty, refuting "the moment
a check observes a content/signature change or a validation failure, the
path leaves the stable set and is marked dirty". -/
theorem stable_set_survives_valid_change :
    ("f" ∈ (validate_json_file mStableValid "f" 10 (2, 1) (some "[]")
        (fun _ => none) none).1.stable_files) ∧
      ("f" ∉ (validate_json_file mStableValid "f" 10 (2, 1) (some "[]")
        (fun _ => none) none).1.dirty_files) ∧
      ((validate_json_file mStableValid "f" 10 (2, 1) (some "[]")
        (fun _ => none) none).2.status = "valid") := by
  refine ⟨by decide, by decide, rfl⟩

open CMonitor in
/-- C7 (amended): when a check of a tracked-or-new path observes a changed
signature, a *validation failure* removes the path from the stable set,
marks it dirty and resets its clean-check counter (to 1, counting this
check); a signature change whose content still validates leaves the stable
set unchanged, clears the dirty marking and also resets the counter. -/
theorem stable_to_dirty_on_validation_failure (m : Monitor) (key : String) (now : ℚ)
    (sig : ℚ × Nat) (content : Option String) (chk : Option String → Option String)
    (hchanged : ∀ st, m.file_states key = some st → sig ≠ (st.last_mtime, st.last_size)) :
    ((contentValidation key content).1 = false →
      key ∉ (validate_json_file m key now sig content chk none).1.stable_files ∧
        key ∈ (validate_json_file m key now sig content chk none).1.dirty_files ∧
        ∃ st', (validate_json_file m key now sig content chk none).1.file_states key
            = some st' ∧ st'.is_dirty = true ∧ st'.check_count = 1) ∧
      ((contentValidation key content).1 = true →
        (validate_json_file m key now sig content chk none).1.stable_files
            = m.stable_files ∧
          key ∉ (validate_json_file m key now sig content chk none).1.dirty_files ∧
          ∃ st', (validate_json_file m key now sig content chk none).1.file_states key
              = some st' ∧ st'.is_dirty = false ∧ st'.check_count = 1) := by
  have hred : validate_json_file m key now sig content chk none
      = validateChanged m key now sig content chk := by
    unfold validate_json_file
    cases hst : m.file_states key with
    | none => rfl
    | some st => simp [hchanged st hst]
  rw [hred]
  constructor
  · intro hv
    refine ⟨?_, ?_, ?_⟩
    · simp only [validateChanged, hv, Bool.false_eq_true, if_false]
      exact not_mem_setDiscard _ _
    · simp only [validateChanged, hv, Bool.false_eq_true, if_false]
      exact mem_setAdd_self _ _
    · refine ⟨FileState.mk now sig.1 sig.2 (chk content) true 1 1, ?_, rfl, rfl⟩
      simp [validateChanged, hv, FileState.mk.injEq]
  · intro hv
    refine ⟨?_, ?_, ?_⟩
    · simp only [validateChanged, hv, if_true]
    · simp only [validateChanged, hv, if_true]
      exact not_mem_setDiscard _ _
    · refine ⟨FileState.mk now sig.1 sig.2 none false 1 0, ?_, rfl, rfl⟩
      simp [validateChanged, hv, FileState.mk.injEq]

open CMonitor in
/-- C7 (amended) witness: the stable path `"f"`, re-checked with changed
signature `(2, 1)` and non-JSON content `"x"`, leaves the stable set and is
marked dirty. -/
theorem stable_to_dirty_witness :
    "f" ∉ (validate_json_file mStableGoneBad "f" 10 (2, 1) (some "x")
        (fun _ => none) none).1.stable_files ∧
      "f" ∈ (validate_json_file mStableGoneBad "f" 10 (2, 1) (some "x")
        (fun _ => none) none).1.dirty_files := by
  have h := (stable_to_dirty_on_validation_failure mStableGoneBad "f" 10 (2, 1)
    (some "x") (fun _ => none) ?_).1 (by rfl)
  · exact ⟨h.1, h.2.1⟩
  · intro st hst
    have hst' : st = stSixClean := by
      simp only [mStableGoneBad] at hst
      simp at hst
      exact hst.symm
    subst hst'
    decide

open CMonitor in
/-- C8: the re-check scheduler: a never-seen path is always due; a tracked
stable path is due exactly when the elapsed time reaches
`min(max_check_interval, min_check_interval * 2^min(check_count -
stable_threshold, 4))` (integer exponent, so a fraction below the
threshold); a tracked non-stable path is due exactly when the elapsed time
reaches the fixed minimum interval. -/
theorem adaptive_recheck_schedule (m : Monitor) (key : String) (now : ℚ) :
    (m.file_states key = none → should_check_file m key now = true) ∧
      (∀ st, m.file_states key = some st → key ∈ m.stable_files →
        (should_check_file m key now = true ↔
          min m.max_check_interval
              (m.min_check_interval *
                (2 : ℚ) ^ (min ((st.check_count : ℤ) - (m.stable_threshold : ℤ)) 4)) ≤
            now - st.last_check)) ∧
      (∀ st, m.file_states key = some st → key ∉ m.stable_files →
        (should_check_file m key now = true ↔
          m.min_check_interval ≤ now - st.last_check)) := by
  refine ⟨?_, ?_, ?_⟩
  · intro h
    simp [should_check_file, h]
  · intro st h hmem
    simp [should_check_file, h, hmem]
  · intro st h hmem
    simp [should_check_file, h, hmem]

open CMonitor in
/-- C8 witness: with `check_count = 7` and threshold 5 the stable interval
is `min 300 (10 * 2^2) = 40`, so the path is due 40 seconds after its last
check. -/
theorem adaptive_recheck_schedule_witness : should_check_file mSchedule "f" 40 = true := by
  refine ((adaptive_recheck_schedule mSchedule "f" 40).2.1 stSevenClean rfl (by decide)).mpr ?_
  show min (300 : ℚ) (10 * (2 : ℚ) ^ ((((7 : Nat) : ℤ) - ((5 : Nat) : ℤ)) ⊓ 4)) ≤ 40 - 0
  rw [show (((7 : Nat) : ℤ) - ((5 : Nat) : ℤ)) ⊓ 4 = 2 from by decide]
  norm_num

open CMonitor in
/-- Every branch of `_validate_json_file` reports the checked file's own
path. -/
theorem validate_json_file_path (m : Monitor) (key : String) (now : ℚ) (sig : ℚ × Nat)
    (content : Option String) (chk : Option String → Option String) (exc : Option String) :
    (validate_json_file m key now sig content chk exc).2.path = key := by
  cases exc with
  | some e => rfl
  | none =>
      unfold validate_json_file validateChanged
      cases m.file_states key with
      | none =>
          dsimp only
          split <;> rfl
      | some st =>
          dsimp only
          split
          · split <;> rfl
          · split <;> rfl

open CMonitor in
/-- The result `runOne` records carries the scheduled file's own path. -/
theorem runOne_path (m : Monitor) (now : ℚ) (chk : Option String → Option String)
    (kf : String × FOutcome) : (runOne m now chk kf).2.path = kf.1 := by
  cases hout : kf.2 with
  | normal sig content => simp only [runOne, hout, validate_json_file_path]
  | raises e => simp only [runOne, hout, validate_json_file_path]
  | timesOut e => simp only [runOne, hout]

open CMonitor in
/-- Each scheduled file contributes exactly one result, carrying its own
path; an injected exception yields status `error` and a per-file timeout
yields status `timeout`, independently of the monitor state threaded
through the batch. -/
theorem runAll_results (now : ℚ) (chk : Option String → Option String) :
    ∀ (fs : List (String × FOutcome)) (m : Monitor),
      ((runAll m now chk fs).2.map (fun r => r.path) = fs.map Prod.fst) ∧
        (∀ p ∈ fs.zip (runAll m now chk fs).2,
          (∀ e, p.1.2 = FOutcome.raises e → p.2.status = "error") ∧
            (∀ e, p.1.2 = FOutcome.timesOut e → p.2.status = "timeout")) := by
  intro fs
  induction fs with
  | nil => intro m; exact ⟨rfl, by intro p hp; simp at hp⟩
  | cons kf rest ih =>
      intro m
      constructor
      · simp only [runAll, List.map_cons]
        exact congrArg₂ _ (runOne_path m now chk kf) ((ih _).1)
      · intro p hp
        simp only [runAll, List.zip_cons_cons] at hp
        rcases List.mem_cons.mp hp with h1 | h2
        · subst h1
          constructor
          · intro e he
            dsimp only at he
            simp [runOne, he, validate_json_file]
          · intro e he
            dsimp only at he
            simp [runOne, he]
        · exact (ih _).2 p h2

open CMonitor in
/-- C9: when `batch_validate` selects a non-empty file set, it always
returns the aggregate summary: one result per selected file (in order,
carrying that file's path), an exception inside a file's validation is
classified as status `error`, a per-file timeout as status `timeout`, and
the summary's error count is the number of `error`-or-`timeout` results —
no per-file failure aborts the batch or escapes to the caller. -/
theorem batch_validate_isolates_errors (m : Monitor) (now : ℚ)
    (chk : Option String → Option String) (files : List (String × FOutcome))
    (force_all : Bool)
    (hne : (if force_all then files
        else files.filter (fun kf => should_check_file m kf.1 now)) ≠ []) :
    ∃ m' results,
      batch_validate m now chk files force_all =
          (m', BatchSummary.report results.length
            (results.countP (fun r => r.status == "valid"))
            (results.countP (fun r => r.status == "invalid"))
            (results.countP (fun r => r.status == "error" || r.status == "timeout"))
            m'.dirty_files m'.stable_files.length results) ∧
        results.map (fun r => r.path) =
          (if force_all then files
            else files.filter (fun kf => should_check_file m kf.1 now)).map Prod.fst ∧
        (∀ p ∈ (if force_all then files
            else files.filter (fun kf => should_check_file m kf.1 now)).zip results,
          (∀ e, p.1.2 = FOutcome.raises e → p.2.status = "error") ∧
            (∀ e, p.1.2 = FOutcome.timesOut e → p.2.status = "timeout")) := by
  unfold batch_validate
  rw [if_neg (by simpa using hne)]
  refine ⟨_, _, rfl, ?_, ?_⟩
  · exact (runAll_results now chk _ _).1
  · exact (runAll_results now chk _ _).2

open CMonitor in
/-- C9 witness: a two-file batch where one validation raises and the other
times out still returns the aggregate summary, with one result per file in
submission order. -/
theorem batch_validate_isolates_errors_witness :
    ∃ m' results,
      batch_validate initMonitor 0 (fun _ => none)
          [("a", FOutcome.raises "boom"), ("b", FOutcome.timesOut "timed out")] true =
        (m', BatchSummary.report results.length
          (results.countP (fun r => r.status == "valid"))
          (results.countP (fun r => r.status == "invalid"))
          (results.countP (fun r => r.status == "error" || r.status == "timeout"))
          m'.dirty_files m'.stable_files.length results) ∧
      results.map (fun r => r.path) = ["a", "b"] := by
  obtain ⟨m', results, heq, hmap, -⟩ := batch_validate_isolates_errors initMonitor 0
    (fun _ => none) [("a", FOutcome.raises "boom"), ("b", FOutcome.timesOut "timed out")]
    true (by simp)
  exact ⟨m', results, heq, by simpa using hmap⟩

open CMonitor in
/-- C10: while a tracked path's `(mtime, size)` signature matches its
recorded state, `_validate_json_file` never re-reads or re-parses the
content (its outcome is independent of the on-disk content and of the
checksum function), and as soon as the incremented clean-check counter
reaches `stable_threshold` the path is added to the stable set, its dirty
flag is cleared and it is removed from the dirty set — with no hypothesis
on what the last content validation concluded. -/
theorem unchanged_signature_stabilizes_without_reparse (m : Monitor) (key : String)
    (now : ℚ) (st : FileState) (c₁ c₂ : Option String)
    (chk₁ chk₂ : Option String → Option String)
    (hst : m.file_states key = some st) :
    (validate_json_file m key now (st.last_mtime, st.last_size) c₁ chk₁ none =
        validate_json_file m key now (st.last_mtime, st.last_size) c₂ chk₂ none) ∧
      (m.stable_threshold ≤ st.check_count + 1 →
        key ∈ (validate_json_file m key now (st.last_mtime, st.last_size) c₁ chk₁
            none).1.stable_files ∧
          key ∉ (validate_json_file m key now (st.last_mtime, st.last_size) c₁ chk₁
            none).1.dirty_files ∧
          (validate_json_file m key now (st.last_mtime, st.last_size) c₁ chk₁
            none).1.file_states key =
            some { st with
              last_check := now
              check_count := st.check_count + 1
              is_dirty := false }) := by
  constructor
  · unfold validate_json_file
    rw [hst]
    simp
  · intro hthr
    unfold validate_json_file
    rw [hst]
    dsimp only
    rw [if_pos rfl, if_pos (by simpa using hthr)]
    refine ⟨mem_setAdd_self _ _, not_mem_setDiscard _ _, ?_⟩
    simp

open CMonitor in
/-- C10 witness: the path `"f"`, whose last content validation was invalid
and which is still invalid on disk (content `"x"`), becomes stable and
leaves the dirty set on its fifth signature-unchanged check — without the
content being looked at. -/
theorem unchanged_signature_stabilizes_witness :
    "f" ∈ (validate_json_file mDirtyNearStable "f" 50 (1, 1) (some "x")
        (fun _ => none) none).1.stable_files ∧
      "f" ∉ (validate_json_file mDirtyNearStable "f" 50 (1, 1) (some "x")
        (fun _ => none) none).1.dirty_files := by
  have h := (unchanged_signature_stabilizes_without_reparse mDirtyNearStable "f" 50
    stFourDirty (some "x") (some "[]") (fun _ => none) (fun _ => none) rfl).2
    (by decide)
  exact ⟨h.1, h.2.1⟩
